import Mathlib

/-!
# Verification of the AstroNews hybrid ranking engine

Shallow embedding of the core ranking code of the AstroNews repository:

* `app/text_utils.py` — tokenization, word-boundary matching, the lexical
  (keyword) scorer and the must-have gate;
* `app/hybrid_search.py` — candidate assembly, per-pool score normalization,
  blending, the soft gate penalty, the stable descending sort, and truncation;
* `app/local_search.py` — the exponential recency decay (`recency_boost`) and
  the timestamp fallback logic (`as_utc`).

Scores are modelled over `ℚ` (the Python code computes with IEEE doubles; the
claims under study are algebraic properties of the formulas, stated over exact
arithmetic).  The value of the recency signal inside `hybrid_search` is
abstracted as an arbitrary function `recF : Option String → ℚ` standing for
`fun p => recency_boost(p, now)`, since the ranking claims hold for every
assignment of recency values; `recency_boost` itself is modelled separately
over `ℝ` (it is built from `Real.exp`).

External collaborators (the FAISS retriever, the sentence-transformer encoder,
file loading, `datetime.fromisoformat`) are inputs or abstract parameters of
the embedding, exactly at the interfaces the code uses them.
-/

namespace AstroNews

open scoped List

/-! ## `app/text_utils.py` -/

/-- The stopword set of `text_utils.STOPWORDS`. -/
def STOPWORDS : List String :=
  ["the", "a", "an", "to", "of", "and", "in", "on", "for", "at", "from", "by",
   "with", "as", "is", "are", "was", "were", "be", "been", "being", "that",
   "this", "these", "those", "it", "its", "into", "over", "about", "than",
   "up", "down", "out", "off", "or", "not"]

/-- A character matched by the token pattern `[a-z0-9]+` of `WORD_RE`
(applied to lower-cased text). -/
def tokenChar (c : Char) : Bool :=
  (Char.ofNat 97 ≤ c && c ≤ Char.ofNat 122) || (Char.ofNat 48 ≤ c && c ≤ Char.ofNat 57)

/-- `str.lower()`; the repository's data is ASCII, where `Char.toLower`
agrees with Python. -/
def lowerStr (s : String) : String := String.mk (s.toList.map Char.toLower)

/-- Maximal runs of `tokenChar` characters (the semantics of
`re.findall(r"[a-z0-9]+", s)`); `acc` holds the current run reversed. -/
def tokenRuns : List Char → List Char → List (List Char)
  | [], acc => if acc.isEmpty then [] else [acc.reverse]
  | c :: cs, acc =>
    if tokenChar c then tokenRuns cs (c :: acc)
    else if acc.isEmpty then tokenRuns cs [] else acc.reverse :: tokenRuns cs []

/-- `text_utils.tokenize`: lower-case, split into `[a-z0-9]+` runs, drop
stopwords. -/
def tokenize (s : String) : List String :=
  ((tokenRuns (lowerStr s).toList []).map fun cs => String.mk cs).filter
    fun w => !(STOPWORDS.contains w)

/-- A regex word character (`\w` on ASCII text: `[a-zA-Z0-9_]`). -/
def wordChar (c : Char) : Bool :=
  (Char.ofNat 97 ≤ c && c ≤ Char.ofNat 122) ||
  (Char.ofNat 65 ≤ c && c ≤ Char.ofNat 90) ||
  (Char.ofNat 48 ≤ c && c ≤ Char.ofNat 57) || c = Char.ofNat 95

/-- Whether a regex `\b` boundary sits between two adjacent positions:
exactly one side is a word character (`none` = beyond the ends). -/
def boundaryAt (a b : Option Char) : Bool :=
  (match a with | none => false | some c => wordChar c) !=
  (match b with | none => false | some c => wordChar c)

/-- The pattern `\b<word>\b` (with `word` escaped, hence matched literally)
matches `text` starting at the current position, where `prev` is the
character just before that position.  All call sites in the repository pass a
nonempty `word` (every element of `MUST_TERMS` / `SYNONYMS` is a nonempty
literal); the empty pattern is mapped to `false`. -/
def wordAt (w t : List Char) (prev : Option Char) : Bool :=
  match w.head?, w.getLast? with
  | some c0, some cl =>
    w.isPrefixOf t && boundaryAt prev (some c0) && boundaryAt (some cl) t[w.length]?
  | _, _ => false

/-- Scan `t` left to right looking for a `\b<word>\b` match (the semantics of
`re.search`). -/
def scanWord (w : List Char) : Option Char → List Char → Bool
  | prev, t =>
    wordAt w t prev ||
      match t with
      | [] => false
      | c :: cs => scanWord w (some c) cs

/-- `text_utils.contains_word`: word-boundary search of `word.lower()` in
`text.lower()`. -/
def contains_word (text word : String) : Bool :=
  scanWord (lowerStr word).toList none (lowerStr text).toList

/-- `text_utils.keyword_hits`: term-frequency counts of the query tokens in
the title and summary token lists. -/
def keyword_hits (query title summary : String) : Nat × Nat :=
  let q := tokenize query
  let tt := tokenize title
  let ts := tokenize summary
  (q.foldl (fun acc tok => acc + tt.count tok) 0,
   q.foldl (fun acc tok => acc + ts.count tok) 0)

/-- The `text_utils.SYNONYMS` table, as the function `tok ↦ SYNONYMS.get(tok, [])`. -/
def SYNONYMS (tok : String) : List String :=
  if tok = "cargo" then ["resupply", "supplies", "crs", "dragon", "station", "iss"]
  else if tok = "station" then
    ["iss", "dragon", "crs", "resupply", "cargo", "international space station"]
  else if tok = "resupply" then ["crs", "dragon", "cargo", "iss", "station"]
  else if tok = "crs" then ["resupply", "dragon", "cargo", "iss", "station"]
  else if tok = "dragon" then ["crs", "resupply", "station", "iss", "cargo"]
  else if tok = "iss" then ["station", "dragon", "crs", "resupply", "cargo"]
  else if tok = "moon" then ["lunar", "artemis"]
  else if tok = "lunar" then ["moon", "artemis"]
  else if tok = "artemis" then ["moon", "lunar"]
  else []

/-- `text_utils.MUST_TERMS`. -/
def MUST_TERMS : List String := ["cargo", "resupply", "dragon", "crs", "station", "iss"]

/-- Python substring test `needle in hay` (`"" in hay` is true). -/
def hasSubstr (hay needle : List Char) : Bool :=
  needle.isPrefixOf hay ||
    match hay with
    | [] => false
    | _ :: t => hasSubstr t needle

/-- `text_utils.enhanced_keyword_score`: weighted term frequency + exact
phrase bonuses + synonym bonuses (note the `elif`: for one (token, synonym)
pair a title match suppresses the summary bonus). -/
def enhanced_keyword_score (query title summary : String) : ℚ :=
  let hits := keyword_hits query title summary
  let score0 : ℚ := 3 * (hits.1 : ℚ) + 1 * (hits.2 : ℚ)
  let q_clean := String.intercalate " " (tokenize query)
  let score1 :=
    if !(q_clean == "") && hasSubstr (lowerStr title).toList q_clean.toList
    then score0 + 2 else score0
  let score2 :=
    if !(q_clean == "") && hasSubstr (lowerStr summary).toList q_clean.toList
    then score1 + 7/10 else score1
  let t_low := lowerStr title
  let s_low := lowerStr summary
  (tokenize query).foldl (fun acc tok =>
    (SYNONYMS tok).foldl (fun acc2 syn =>
      if contains_word t_low syn then acc2 + 1
      else if contains_word s_low syn then acc2 + 3/10
      else acc2) acc) score2

/-- The synonym-bonus rule as the specification words it (for comparison
with the code's `enhanced_keyword_score`): `+1.0` if the synonym appears as a
whole word in the title AND, independently, `+0.3` if it appears in the
summary — rather than the code's `elif`, under which a title match
suppresses the summary bonus for the same (token, synonym) pair. -/
def enhanced_keyword_score_spec (query title summary : String) : ℚ :=
  let hits := keyword_hits query title summary
  let score0 : ℚ := 3 * (hits.1 : ℚ) + 1 * (hits.2 : ℚ)
  let q_clean := String.intercalate " " (tokenize query)
  let score1 :=
    if !(q_clean == "") && hasSubstr (lowerStr title).toList q_clean.toList
    then score0 + 2 else score0
  let score2 :=
    if !(q_clean == "") && hasSubstr (lowerStr summary).toList q_clean.toList
    then score1 + 7/10 else score1
  let t_low := lowerStr title
  let s_low := lowerStr summary
  (tokenize query).foldl (fun acc tok =>
    (SYNONYMS tok).foldl (fun acc2 syn =>
      (if contains_word t_low syn then acc2 + 1 else acc2) +
        (if contains_word s_low syn then 3/10 else 0)) acc) score2

/-- `text_utils.must_have_gate`: if the query's token set meets `MUST_TERMS`,
require a word-boundary occurrence of some must-term in the title or the
summary; otherwise pass. -/
def must_have_gate (query title summary : String) : Bool :=
  let q := tokenize query
  if MUST_TERMS.any fun t => q.contains t then
    MUST_TERMS.any fun t => contains_word title t || contains_word summary t
  else true

/-! ## `app/hybrid_search.py` — data model -/

/-- One row of the metadata table `data/index/meta.jsonl` at the fields read
by `hybrid_search` (`m.get(...)`: an absent key reads as `None`, i.e. `none`). -/
structure Meta where
  title : Option String
  url : Option String
  published_at : Option String
  published : Option String
  source : Option String
deriving DecidableEq, Inhabited

/-- One row of the raw-text table (only `summary` is read). -/
structure RawItem where
  summary : Option String
deriving DecidableEq, Inhabited

/-- The candidate record built in the assembly loop of `hybrid_search`. -/
structure Candidate where
  idx : ℤ
  title : String
  summary : String
  url : Option String
  published_at : Option String
  source : Option String
  semantic_raw : ℚ
  keyword_raw : ℚ
  recency : ℚ
deriving DecidableEq, Inhabited

/-- A candidate together with the fields added by normalization and blending. -/
structure Scored where
  cand : Candidate
  semantic_norm : ℚ
  keyword_norm : ℚ
  score_final : ℚ
deriving DecidableEq, Inhabited

/-- One entry of the result list returned by `hybrid_search`. -/
structure SearchHit where
  title : String
  url : Option String
  published_at : Option String
  source : Option String
  score_final : ℚ
  score_semantic : ℚ
  score_keyword : ℚ
  score_recency : ℚ
  semantic_raw : ℚ
  keyword_raw : ℚ
deriving DecidableEq, Inhabited

/-- Python `a or b` on optional strings: `None` and `""` are falsy. -/
def pyOr (a b : Option String) : Option String :=
  match a with
  | some s => if s = "" then b else some s
  | none => b

/-- Python indexing `l[i]` (negative indices count from the end).  The
retriever hands `hybrid_search` only indices `≥ -1`, and the assembly loop
accesses `meta`/`raw_items` only after bounds tests, so the `default` branch
is never reached on the code's inputs. -/
def pyGet {α : Type} [Inhabited α] (l : List α) (i : ℤ) : α :=
  let j : ℤ := if i < 0 then (l.length : ℤ) + i else i
  l.getD j.toNat default

/-- Python slicing `l[:k]` for an arbitrary integer `k`. -/
def pySliceTo {α : Type} (l : List α) (k : ℤ) : List α :=
  if 0 ≤ k then l.take k.toNat
  else l.take ((l.length : ℤ) + k).toNat

/-! ## `app/hybrid_search.py` — the ranking pipeline -/

/-- The blending weights `SEM_W, KW_W, REC_W = 0.45, 0.35, 0.20`. -/
def SEM_W : ℚ := 45/100

/-- See `SEM_W`. -/
def KW_W : ℚ := 35/100

/-- See `SEM_W`. -/
def REC_W : ℚ := 20/100

/-- The normalization epsilon `1e-9`. -/
def EPS : ℚ := 1/1000000000

/-- The candidate built for one retriever hit `(s, idx)` (the body of the
assembly loop after the skip test): join with `meta[idx]`, with
`raw_items[idx] if idx < len(raw_items) else {}`, compute the raw keyword
score and the recency value. -/
def buildCandidate (query : String) (recF : Option String → ℚ)
    (meta : List Meta) (raw : List RawItem) (s : ℚ) (idx : ℤ) : Candidate :=
  let m := pyGet meta idx
  let r : RawItem := if idx < (raw.length : ℤ) then pyGet raw idx else ⟨none⟩
  let title := m.title.getD ""
  let summary := r.summary.getD ""
  let pub := pyOr m.published_at m.published
  { idx := idx
    title := title
    summary := summary
    url := m.url
    published_at := pub
    source := m.source
    semantic_raw := s
    keyword_raw := enhanced_keyword_score query title summary
    recency := recF pub }

/-- The assembly loop of `hybrid_search`: for each retriever pair `(s, idx)`,
skip iff `idx == -1 or idx >= len(meta)`, else build the candidate. -/
def assemble (query : String) (recF : Option String → ℚ)
    (meta : List Meta) (raw : List RawItem) (pairs : List (ℚ × ℤ)) : List Candidate :=
  pairs.filterMap fun p =>
    if p.2 = -1 ∨ (meta.length : ℤ) ≤ p.2 then none
    else some (buildCandidate query recF meta raw p.1 p.2)

/-- Python `min(x :: xs)`. -/
def pyMin (x : ℚ) (xs : List ℚ) : ℚ := xs.foldl min x

/-- Python `max(x :: xs)`. -/
def pyMax (x : ℚ) (xs : List ℚ) : ℚ := xs.foldl max x

/-- Normalization and blending of `hybrid_search` over a (nonempty) candidate
pool: min-max normalize `semantic_raw`, max-normalize `keyword_raw`, blend
with the fixed weights, and multiply by `0.6` when the must-have gate fails. -/
def scorePool (query : String) (cands : List Candidate) : List Scored :=
  match cands with
  | [] => []
  | c0 :: rest =>
    let smin := pyMin c0.semantic_raw (rest.map fun c => c.semantic_raw)
    let smax := pyMax c0.semantic_raw (rest.map fun c => c.semantic_raw)
    let sden := max EPS (smax - smin)
    let kmax := max EPS (pyMax c0.keyword_raw (rest.map fun c => c.keyword_raw))
    (c0 :: rest).map fun c =>
      let sn := (c.semantic_raw - smin) / sden
      let kn := c.keyword_raw / kmax
      let base := SEM_W * sn + KW_W * kn + REC_W * c.recency
      { cand := c
        semantic_norm := sn
        keyword_norm := kn
        score_final := if must_have_gate query c.title c.summary then base else 6/10 * base }

/-- The comparator realising `candidates.sort(key=score_final, reverse=True)`:
Python's sort is stable, so it equals a stable merge sort with this relation. -/
def scoreLE (a b : Scored) : Bool := decide (b.score_final ≤ a.score_final)

/-- Projection of a scored candidate onto the dictionary appended to
`results`. -/
def toHit (c : Scored) : SearchHit :=
  { title := c.cand.title
    url := c.cand.url
    published_at := c.cand.published_at
    source := c.cand.source
    score_final := c.score_final
    score_semantic := c.semantic_norm
    score_keyword := c.keyword_norm
    score_recency := c.cand.recency
    semantic_raw := c.cand.semantic_raw
    keyword_raw := c.cand.keyword_raw }

/-- `hybrid_search.hybrid_search`, with the I/O-produced inputs made explicit:
`meta` (= `load_meta()`), `raw` (= `load_raw_items()`), `pairs` (the
`(score, index)` pairs returned by `semantic_candidates`), and `recF`
abstracting `fun p => recency_boost(p, now)`. -/
def hybrid_search (query : String) (k : ℤ) (meta : List Meta)
    (raw : List RawItem) (pairs : List (ℚ × ℤ)) (recF : Option String → ℚ) :
    List SearchHit :=
  let candidates := assemble query recF meta raw pairs
  if candidates.isEmpty then []
  else (pySliceTo ((scorePool query candidates).mergeSort scoreLE) k).map toHit

/-! ## `app/local_search.py` — timestamps and recency

Python `datetime` values (always normalized to UTC by the code under study)
are modelled by a Gregorian calendar date plus the second-of-day; the
conversion to an absolute epoch-style second count uses the proleptic
Gregorian day ordinal, exactly the arithmetic underlying
`datetime.toordinal`, so that `datetime` subtraction (an exact timedelta)
corresponds to subtraction of `toUTCSeconds`. -/

/-- Python `datetime` leap-year rule. -/
def isLeapYear (y : ℤ) : Bool := (y % 4 == 0 && y % 100 != 0) || y % 400 == 0

/-- Cumulative day counts before month `1..12` in a non-leap year. -/
def monthOffsets : List ℤ := [0, 31, 59, 90, 120, 151, 181, 212, 243, 273, 304, 334]

/-- Days in the year strictly before month `m` (`1 ≤ m ≤ 12`). -/
def daysBeforeMonth (leap : Bool) (m : ℤ) : ℤ :=
  monthOffsets.getD (m - 1).toNat 0 + (if leap && decide (3 ≤ m) then 1 else 0)

/-- Days strictly before year `y` in the proleptic Gregorian calendar,
counted from January 1 of year 1 (as in `date.toordinal`); Python's floor
division is `Int.fdiv`. -/
def daysBeforeYear (y : ℤ) : ℤ :=
  365 * (y - 1) + (y - 1).fdiv 4 - (y - 1).fdiv 100 + (y - 1).fdiv 400

/-- A UTC instant: calendar date plus seconds-within-day (Python keeps
hour/minute/second/microsecond; `secOfDay` aggregates them exactly). -/
structure PyDateTime where
  year : ℤ
  month : ℤ
  day : ℤ
  secOfDay : ℚ
deriving DecidableEq, Inhabited

/-- The proleptic Gregorian ordinal of the date. -/
def toOrdinalDay (d : PyDateTime) : ℤ :=
  daysBeforeYear d.year + daysBeforeMonth (isLeapYear d.year) d.month + (d.day - 1)

/-- Absolute time in seconds; differences of this quantity are exactly
`(a - b).total_seconds()` for UTC datetimes `a`, `b`. -/
def toUTCSeconds (d : PyDateTime) : ℚ := 86400 * (toOrdinalDay d : ℚ) + d.secOfDay

/-- `now.replace(year=2000)`: keeps month, day and time of day (2000 is a
leap year, so this never raises, even on February 29). -/
def replaceYear2000 (d : PyDateTime) : PyDateTime := { d with year := 2000 }

/-- The instant produced by the fallback branches of `as_utc` /
`recency_boost`: `datetime.now(timezone.utc).replace(year=2000)`. -/
def fallbackSeconds (now : PyDateTime) : ℚ := toUTCSeconds (replaceYear2000 now)

/-- The runtime value of the `published_at` argument of `recency_boost`:
a string, a `datetime` (given as a UTC instant, which is what lines 91–92 of
`local_search.py` normalize any datetime to), or anything else (`None`
included) — the `else` branch of the code. -/
inductive PubVal where
  | str (s : String)
  | dt (d : PyDateTime)
  | null
deriving DecidableEq, Inhabited

/-- `local_search.as_utc`, returning the UTC instant in seconds.  The
parameter `parse` abstracts the external parser on the already-stripped,
`Z`-normalized input (`datetime.fromisoformat` followed by the UTC
normalization of lines 58–60); `parse s = none` models the exception caught
at line 61.  The code's own logic — empty-string test, fallback to
`now.replace(year=2000)` on missing/unparseable input — is explicit. -/
def as_utc (parse : String → Option ℚ) (ts : String) (now : PyDateTime) : ℚ :=
  if ts = "" then fallbackSeconds now
  else
    match parse ts with
    | some t => t
    | none => fallbackSeconds now

/-- `age_days = max(0.0, (now - dt).total_seconds() / 86400.0)` together with
the type dispatch of `recency_boost` on `published_at`. -/
def age_days (parse : String → Option ℚ) (pub : PubVal) (now : PyDateTime) : ℚ :=
  let t : ℚ :=
    match pub with
    | .str s => as_utc parse s now
    | .dt d => toUTCSeconds d
    | .null => fallbackSeconds now
  max 0 ((toUTCSeconds now - t) / 86400)

/-- `local_search.recency_boost`: `exp(-age_days / tau_days)` (the code's
`tau_days` defaults to `14.0`; every call site uses the default). -/
noncomputable def recency_boost (parse : String → Option ℚ) (pub : PubVal)
    (now : PyDateTime) (tau_days : ℚ) : ℝ :=
  Real.exp (-((age_days parse pub now : ℚ) : ℝ) / (tau_days : ℝ))

/-! ## Concrete fixtures (used by witnesses and counterexamples) -/

/-- A two-row metadata table. -/
def metaT : List Meta :=
  [{ title := some "t0", url := none, published_at := none, published := none, source := none },
   { title := some "t1", url := none, published_at := none, published := none, source := none }]

/-- Retriever pairs hitting both rows of `metaT`, semantic scores `1` and `0`. -/
def pairsT : List (ℚ × ℤ) := [(1, 0), (0, 1)]

/-- A recency assignment giving every document the age-zero value `1`
(attained by `recency_boost` on a document published at `now`). -/
def recone (_ : Option String) : ℚ := 1

/-- A single scoring-input candidate. -/
def candT : Candidate :=
  { idx := 0, title := "t", summary := "", url := none, published_at := none,
    source := none, semantic_raw := 1, keyword_raw := 0, recency := 1 }

/-- Retriever pairs whose semantic scores differ by `1e-10`, less than the
normalization epsilon `1e-9`. -/
def pairsS : List (ℚ × ℤ) := [(0, 0), (1/10000000000, 1)]

/-- A second scoring-input candidate, with semantic score `0`. -/
def candU : Candidate :=
  { idx := 1, title := "u", summary := "", url := none, published_at := none,
    source := none, semantic_raw := 0, keyword_raw := 0, recency := 1 }

/-- A parse function for witnesses: parses exactly the string `"a"`, to
instant `0`. -/
def parseT (s : String) : Option ℚ := if s = "a" then some 0 else none

/-- An always-failing parse function. -/
def parseNone (_ : String) : Option ℚ := none

/-- A concrete "now": 2026-10-12, midnight UTC. -/
def nowT : PyDateTime := { year := 2026, month := 10, day := 12, secOfDay := 0 }

/-! ## Helper lemmas -/

theorem scorePool_length (query : String) (cands : List Candidate) :
    (scorePool query cands).length = cands.length := by
  cases cands <;> simp [scorePool]

theorem mem_scorePool_of_mem (query : String) {cands : List Candidate}
    {c : Candidate} (hc : c ∈ cands) :
    ∃ sc ∈ scorePool query cands, sc.cand = c := by
  cases cands with
  | nil => cases hc
  | cons c0 rest =>
    refine ⟨_, List.mem_map_of_mem _ hc, rfl⟩

theorem length_filterMap_ite {α β : Type} (p : α → Prop) [DecidablePred p]
    (f : α → β) (l : List α) :
    (l.filterMap fun a => if p a then none else some (f a)).length
      = (l.filter fun a => !(decide (p a))).length := by
  induction l with
  | nil => rfl
  | cons a t ih => by_cases h : p a <;> simp [h, ih]

theorem pyMin_le (x : ℚ) (xs : List ℚ) : ∀ y ∈ x :: xs, pyMin x xs ≤ y := by
  induction xs generalizing x with
  | nil =>
    intro y hy
    simp only [List.mem_singleton] at hy
    simp [pyMin, hy]
  | cons a t ih =>
    intro y hy
    have hfold : pyMin x (a :: t) = pyMin (min x a) t := rfl
    rw [hfold]
    have hhead : pyMin (min x a) t ≤ min x a := ih (min x a) (min x a) (List.mem_cons_self _ _)
    rcases List.mem_cons.mp hy with h | h
    · subst h
      exact le_trans hhead (min_le_left _ _)
    · rcases List.mem_cons.mp h with h2 | h2
      · subst h2
        exact le_trans hhead (min_le_right _ _)
      · exact ih (min x a) y (List.mem_cons_of_mem _ h2)

theorem pyMin_mem (x : ℚ) (xs : List ℚ) : pyMin x xs ∈ x :: xs := by
  induction xs generalizing x with
  | nil => simp [pyMin]
  | cons a t ih =>
    have hfold : pyMin x (a :: t) = pyMin (min x a) t := rfl
    rw [hfold]
    rcases List.mem_cons.mp (ih (min x a)) with h | h
    · rcases le_total x a with hxa | hxa
      · rw [h, min_eq_left hxa]
        exact List.mem_cons_self _ _
      · rw [h, min_eq_right hxa]
        exact List.mem_cons_of_mem _ (List.mem_cons_self _ _)
    · exact List.mem_cons_of_mem _ (List.mem_cons_of_mem _ h)

theorem le_pyMax (x : ℚ) (xs : List ℚ) : ∀ y ∈ x :: xs, y ≤ pyMax x xs := by
  induction xs generalizing x with
  | nil =>
    intro y hy
    simp only [List.mem_singleton] at hy
    simp [pyMax, hy]
  | cons a t ih =>
    intro y hy
    have hfold : pyMax x (a :: t) = pyMax (max x a) t := rfl
    rw [hfold]
    have hhead : max x a ≤ pyMax (max x a) t := ih (max x a) (max x a) (List.mem_cons_self _ _)
    rcases List.mem_cons.mp hy with h | h
    · subst h
      exact le_trans (le_max_left _ _) hhead
    · rcases List.mem_cons.mp h with h2 | h2
      · subst h2
        exact le_trans (le_max_right _ _) hhead
      · exact ih (max x a) y (List.mem_cons_of_mem _ h2)

theorem pyMax_mem (x : ℚ) (xs : List ℚ) : pyMax x xs ∈ x :: xs := by
  induction xs generalizing x with
  | nil => simp [pyMax]
  | cons a t ih =>
    have hfold : pyMax x (a :: t) = pyMax (max x a) t := rfl
    rw [hfold]
    rcases List.mem_cons.mp (ih (max x a)) with h | h
    · rcases le_total x a with hxa | hxa
      · rw [h, max_eq_right hxa]
        exact List.mem_cons_of_mem _ (List.mem_cons_self _ _)
      · rw [h, max_eq_left hxa]
        exact List.mem_cons_self _ _
    · exact List.mem_cons_of_mem _ (List.mem_cons_of_mem _ h)

theorem pySliceTo_length {α : Type} (l : List α) (k : ℤ) :
    (pySliceTo l k).length =
      if 0 ≤ k then min k.toNat l.length else l.length - (-k).toNat := by
  unfold pySliceTo
  split
  · simp [List.length_take]
  · simp only [List.length_take]
    omega

theorem hybrid_eval_of_sorted (query : String) (k : ℤ) (meta : List Meta)
    (raw : List RawItem) (pairs : List (ℚ × ℤ)) (recF : Option String → ℚ)
    (h : (scorePool query (assemble query recF meta raw pairs)).Pairwise
          fun a b => scoreLE a b = true) :
    hybrid_search query k meta raw pairs recF =
      (pySliceTo (scorePool query (assemble query recF meta raw pairs)) k).map toHit := by
  unfold hybrid_search
  by_cases hc : (assemble query recF meta raw pairs).isEmpty
  · have h0 := List.isEmpty_iff.mp hc
    simp [hc, h0, scorePool, pySliceTo]
  · simp only [hc, Bool.false_eq_true, if_false]
    rw [List.mergeSort_of_sorted h]

/-! ## Claims -/

/-- **C1.** For every candidate pool, each candidate's final score equals
`SEM_W·semantic_norm + KW_W·keyword_norm + REC_W·recency` when the must-have
gate passes, and `0.6` times that weighted sum when it fails; the gate never
removes a candidate from the scored pool (the scored pool has exactly the
size of the input pool). -/
theorem C1_final_score_formula (query : String) (cands : List Candidate)
    (sc : Scored) (hmem : sc ∈ scorePool query cands) :
    (sc.score_final =
      if must_have_gate query sc.cand.title sc.cand.summary
      then SEM_W * sc.semantic_norm + KW_W * sc.keyword_norm + REC_W * sc.cand.recency
      else 6/10 * (SEM_W * sc.semantic_norm + KW_W * sc.keyword_norm + REC_W * sc.cand.recency)) ∧
    (scorePool query cands).length = cands.length := by
  refine ⟨?_, scorePool_length query cands⟩
  cases cands with
  | nil => simp [scorePool] at hmem
  | cons c0 rest =>
    simp only [scorePool, List.mem_map] at hmem
    obtain ⟨c, hc, rfl⟩ := hmem
    by_cases hg : must_have_gate query c.title c.summary <;> simp [hg]

unseal Rat.add Rat.mul Rat.inv Rat.sub Nat.gcd in
/-- Witness for C1 at a concrete one-candidate pool. -/
theorem C1_final_score_formula_witness :
    ({ cand := candT, semantic_norm := 0, keyword_norm := 0, score_final := 1/5 } : Scored)
        ∈ scorePool "q" [candT] ∧
    (({ cand := candT, semantic_norm := 0, keyword_norm := 0, score_final := 1/5 } : Scored).score_final =
      if must_have_gate "q" candT.title candT.summary
      then SEM_W * 0 + KW_W * 0 + REC_W * candT.recency
      else 6/10 * (SEM_W * 0 + KW_W * 0 + REC_W * candT.recency)) := by
  have hmem : ({ cand := candT, semantic_norm := 0, keyword_norm := 0, score_final := 1/5 } : Scored)
      ∈ scorePool "q" [candT] := by decide
  exact ⟨hmem, (C1_final_score_formula "q" [candT] _ hmem).1⟩

/-- **C5.** If the tokenized query has no token in `MUST_TERMS`, the gate
passes; if it has one, the gate passes iff some must-term occurs as a whole
word in the title or the summary. -/
theorem C5_must_have_gate (query title summary : String) :
    ((∀ tok ∈ tokenize query, tok ∉ MUST_TERMS) →
        must_have_gate query title summary = true) ∧
    ((∃ tok ∈ tokenize query, tok ∈ MUST_TERMS) →
      (must_have_gate query title summary = true ↔
        ∃ t ∈ MUST_TERMS, contains_word title t = true ∨ contains_word summary t = true)) := by
  constructor
  · intro h
    unfold must_have_gate
    rw [if_neg]
    simp only [List.any_eq_true, not_exists]
    rintro t ⟨ht, hc⟩
    exact h t (by simpa using hc) ht
  · rintro ⟨tok, htok, hmust⟩
    unfold must_have_gate
    rw [if_pos]
    · simp [List.any_eq_true]
    · simp only [List.any_eq_true]
      exact ⟨tok, hmust, by simpa using htok⟩

/-- Witness for C5: the spec's own example — query "cargo resupply mission"
with "station" in the title passes the gate. -/
theorem C5_must_have_gate_witness :
    must_have_gate "cargo resupply mission" "station keeps orbit" "" = true :=
  ((C5_must_have_gate "cargo resupply mission" "station keeps orbit" "").2
      ⟨"cargo", by decide, by decide⟩).mpr
    ⟨"station", by decide, Or.inl (by decide)⟩

/-- **C10.** A retriever index in range of the metadata table but out of
range of the raw-text table is not skipped: the candidate is assembled with
an empty summary and scored; and the assembled pool drops exactly the pairs
with `idx = -1` or `idx ≥ len(meta)`. -/
theorem C10_raw_out_of_range (query : String) (recF : Option String → ℚ)
    (meta : List Meta) (raw : List RawItem) (pairs : List (ℚ × ℤ))
    (s : ℚ) (idx : ℤ) (hmem : (s, idx) ∈ pairs) (h0 : 0 ≤ idx)
    (hm : idx < (meta.length : ℤ)) (hr : (raw.length : ℤ) ≤ idx) :
    (∃ c ∈ assemble query recF meta raw pairs,
        c.idx = idx ∧ c.summary = "" ∧ c.semantic_raw = s) ∧
    (∃ sc ∈ scorePool query (assemble query recF meta raw pairs),
        sc.cand.idx = idx ∧ sc.cand.summary = "") ∧
    (assemble query recF meta raw pairs).length
      = (pairs.filter fun p => !(decide (p.2 = -1 ∨ (meta.length : ℤ) ≤ p.2))).length := by
  have hskip : ¬((s, idx).2 = -1 ∨ (meta.length : ℤ) ≤ (s, idx).2) := by
    simp only []
    push_neg
    exact ⟨by omega, hm⟩
  have hcand : buildCandidate query recF meta raw s idx ∈ assemble query recF meta raw pairs := by
    unfold assemble
    exact List.mem_filterMap.mpr ⟨(s, idx), hmem, by rw [if_neg hskip]⟩
  have hsum : (buildCandidate query recF meta raw s idx).summary = "" := by
    have hlt : ¬(idx < (raw.length : ℤ)) := by omega
    simp [buildCandidate, hlt]
  refine ⟨⟨_, hcand, rfl, hsum, rfl⟩, ?_, ?_⟩
  · obtain ⟨sc, hsc, hcc⟩ := mem_scorePool_of_mem query hcand
    exact ⟨sc, hsc, by rw [hcc]; rfl, by rw [hcc]; exact hsum⟩
  · exact length_filterMap_ite _ _ pairs

/-- Witness for C10: index `0` is in range of the two-row `metaT` but out of
range of the empty raw-text table. -/
theorem C10_raw_out_of_range_witness :
    (∃ c ∈ assemble "q" recone metaT [] [((1 : ℚ), (0 : ℤ))],
        c.idx = 0 ∧ c.summary = "" ∧ c.semantic_raw = 1) ∧
    (∃ sc ∈ scorePool "q" (assemble "q" recone metaT [] [((1 : ℚ), (0 : ℤ))]),
        sc.cand.idx = 0 ∧ sc.cand.summary = "") ∧
    (assemble "q" recone metaT [] [((1 : ℚ), (0 : ℤ))]).length
      = ([((1 : ℚ), (0 : ℤ))].filter fun p =>
          !(decide (p.2 = -1 ∨ (metaT.length : ℤ) ≤ p.2))).length :=
  C10_raw_out_of_range "q" recone metaT [] [((1 : ℚ), (0 : ℤ))] 1 0
    (by decide) (by decide) (by decide) (by decide)

/-- **C2 (amended).** The list returned by `hybrid_search` has length
`min(k, pool_size)` for `k ≥ 0` (so `k = 0` gives the empty list and
`k ≥ pool_size` the full pool, and an empty pool gives the empty list, never
an error); for negative `k`, Python slice semantics apply: the result has
length `max(0, pool_size + k)`, not `0`. -/
theorem C2_result_length (query : String) (k : ℤ) (meta : List Meta)
    (raw : List RawItem) (pairs : List (ℚ × ℤ)) (recF : Option String → ℚ) :
    (hybrid_search query k meta raw pairs recF).length =
      if 0 ≤ k then min k.toNat (assemble query recF meta raw pairs).length
      else (assemble query recF meta raw pairs).length - (-k).toNat := by
  unfold hybrid_search
  by_cases hc : (assemble query recF meta raw pairs).isEmpty
  · have h0 := List.isEmpty_iff.mp hc
    rw [h0]
    simp only [List.isEmpty_nil, if_true, List.length_nil]
    split <;> simp
  · simp only [hc, Bool.false_eq_true, if_false, List.length_map, pySliceTo_length,
      List.length_mergeSort, scorePool_length]

unseal Rat.add Rat.mul Rat.inv Rat.sub Nat.gcd in
/-- Counterexample to C2 as stated: on a two-candidate pool, `k = -1` returns
one result (Python drops the last element), not the empty list that
`min(max(k, 0), pool_size) = 0` would demand. -/
theorem C2_result_length_counterexample :
    (hybrid_search "q" (-1) metaT [] pairsT recone).length = 1 ∧
    (assemble "q" recone metaT [] pairsT).length = 2 ∧
    (hybrid_search "q" (-1) metaT [] pairsT recone).length ≠
      min (max (-1 : ℤ) 0).toNat (assemble "q" recone metaT [] pairsT).length := by
  have he := hybrid_eval_of_sorted "q" (-1) metaT [] pairsT recone (by decide)
  refine ⟨?_, by decide, ?_⟩ <;> rw [he] <;> decide

/-- **C3 (amended).** Over every nonempty candidate pool, all
`semantic_norm` values lie in `[0, 1]`; a candidate with minimal
`semantic_raw` gets `0`; a candidate with maximal `semantic_raw` gets `1`
provided the pool's spread `max - min` is at least the epsilon `1e-9` (when
`0 < max - min < 1e-9` the clamped denominator makes the maximum candidate's
norm `(max - min)/1e-9 < 1`); and when all raw values are equal every
candidate gets `0`. -/
theorem C3_semantic_norm_bounds (query : String) (cands : List Candidate)
    (hne : cands ≠ []) :
    (∀ sc ∈ scorePool query cands, 0 ≤ sc.semantic_norm ∧ sc.semantic_norm ≤ 1) ∧
    (∀ sc ∈ scorePool query cands,
      (∀ d ∈ cands, sc.cand.semantic_raw ≤ d.semantic_raw) → sc.semantic_norm = 0) ∧
    (∀ sc ∈ scorePool query cands,
      (∀ d ∈ cands, d.semantic_raw ≤ sc.cand.semantic_raw) →
      (∃ d ∈ cands, d.semantic_raw + EPS ≤ sc.cand.semantic_raw) →
      sc.semantic_norm = 1) ∧
    ((∀ c ∈ cands, ∀ d ∈ cands, c.semantic_raw = d.semantic_raw) →
      ∀ sc ∈ scorePool query cands, sc.semantic_norm = 0) := by
  obtain ⟨c0, rest, rfl⟩ : ∃ c0 rest, cands = c0 :: rest := by
    cases cands with
    | nil => exact absurd rfl hne
    | cons c0 rest => exact ⟨c0, rest, rfl⟩
  have hmap : c0.semantic_raw :: rest.map (fun c => c.semantic_raw)
      = (c0 :: rest).map fun c => c.semantic_raw := rfl
  set smin := pyMin c0.semantic_raw (rest.map fun c => c.semantic_raw) with hsmin
  set smax := pyMax c0.semantic_raw (rest.map fun c => c.semantic_raw) with hsmax
  set sden := max EPS (smax - smin) with hsden
  have hEPS : (0 : ℚ) < EPS := by norm_num [EPS]
  have hpos : 0 < sden := lt_of_lt_of_le hEPS (le_max_left _ _)
  have hform : ∀ sc ∈ scorePool query (c0 :: rest),
      sc.semantic_norm = (sc.cand.semantic_raw - smin) / sden ∧ sc.cand ∈ c0 :: rest := by
    intro sc hsc
    simp only [scorePool, List.mem_map] at hsc
    obtain ⟨c, hc, rfl⟩ := hsc
    exact ⟨rfl, hc⟩
  have hraw_mem : ∀ c ∈ c0 :: rest,
      c.semantic_raw ∈ c0.semantic_raw :: rest.map fun d => d.semantic_raw := by
    intro c hc
    rw [hmap]
    exact List.mem_map_of_mem _ hc
  have hmin_le : ∀ c ∈ c0 :: rest, smin ≤ c.semantic_raw := fun c hc =>
    pyMin_le _ _ _ (hraw_mem c hc)
  have hle_max : ∀ c ∈ c0 :: rest, c.semantic_raw ≤ smax := fun c hc =>
    le_pyMax _ _ _ (hraw_mem c hc)
  have hmin_ex : ∃ d ∈ c0 :: rest, smin = d.semantic_raw := by
    have := pyMin_mem c0.semantic_raw (rest.map fun c => c.semantic_raw)
    rw [hmap, ← hsmin] at this
    obtain ⟨d, hd, hdeq⟩ := List.mem_map.mp this
    exact ⟨d, hd, hdeq.symm⟩
  have hmax_ex : ∃ d ∈ c0 :: rest, smax = d.semantic_raw := by
    have := pyMax_mem c0.semantic_raw (rest.map fun c => c.semantic_raw)
    rw [hmap, ← hsmax] at this
    obtain ⟨d, hd, hdeq⟩ := List.mem_map.mp this
    exact ⟨d, hd, hdeq.symm⟩
  refine ⟨?_, ?_, ?_, ?_⟩
  · intro sc hsc
    obtain ⟨heq, hc⟩ := hform sc hsc
    rw [heq]
    constructor
    · exact div_nonneg (sub_nonneg.mpr (hmin_le _ hc)) hpos.le
    · rw [div_le_one hpos]
      have h1 := hle_max _ hc
      have h2 : smax - smin ≤ sden := le_max_right _ _
      linarith
  · intro sc hsc hminimal
    obtain ⟨heq, hc⟩ := hform sc hsc
    obtain ⟨d, hd, hdeq⟩ := hmin_ex
    have : smin = sc.cand.semantic_raw :=
      le_antisymm (by linarith [hmin_le _ hc]) (hdeq ▸ hminimal d hd)
    rw [heq, ← this, sub_self, zero_div]
  · intro sc hsc hmaximal hgap
    obtain ⟨heq, hc⟩ := hform sc hsc
    obtain ⟨d, hd, hdgap⟩ := hgap
    have hmaxeq : smax = sc.cand.semantic_raw := by
      obtain ⟨e, he, heeq⟩ := hmax_ex
      exact le_antisymm (heeq ▸ hmaximal e he) (hle_max _ hc)
    have hge : EPS ≤ smax - smin := by
      have := hmin_le d hd
      linarith
    rw [heq, hsden, max_eq_right hge, hmaxeq]
    exact div_self (by linarith)
  · intro hall sc hsc
    obtain ⟨heq, hc⟩ := hform sc hsc
    obtain ⟨d, hd, hdeq⟩ := hmin_ex
    have : smin = sc.cand.semantic_raw := by rw [hdeq]; exact hall d hd sc.cand hc
    rw [heq, ← this, sub_self, zero_div]

unseal Rat.add Rat.mul Rat.inv Rat.sub Nat.gcd in
/-- Witness for C3 on a concrete two-candidate pool with raw scores `1`
and `0`. -/
theorem C3_semantic_norm_bounds_witness :
    (∀ sc ∈ scorePool "q" [candT, candU], 0 ≤ sc.semantic_norm ∧ sc.semantic_norm ≤ 1) ∧
    (∀ sc ∈ scorePool "q" [candT, candU],
      (∀ d ∈ [candT, candU], sc.cand.semantic_raw ≤ d.semantic_raw) → sc.semantic_norm = 0) ∧
    (∀ sc ∈ scorePool "q" [candT, candU],
      (∀ d ∈ [candT, candU], d.semantic_raw ≤ sc.cand.semantic_raw) →
      (∃ d ∈ [candT, candU], d.semantic_raw + EPS ≤ sc.cand.semantic_raw) →
      sc.semantic_norm = 1) ∧
    ((∀ c ∈ [candT, candU], ∀ d ∈ [candT, candU], c.semantic_raw = d.semantic_raw) →
      ∀ sc ∈ scorePool "q" [candT, candU], sc.semantic_norm = 0) :=
  C3_semantic_norm_bounds "q" [candT, candU] (by decide)

unseal Rat.add Rat.mul Rat.inv Rat.sub Nat.gcd in
/-- Counterexample to C3 as stated: with raw semantic scores `0` and
`1e-10` (not all equal), the maximal candidate's `semantic_norm` is
`1/10`, not `1.0`, because the denominator is clamped to `1e-9`. -/
theorem C3_semantic_norm_counterexample :
    ((scorePool "q" (assemble "q" recone metaT [] pairsS)).map fun sc =>
        (sc.cand.semantic_raw, sc.semantic_norm))
      = [(0, 0), (1/10000000000, 1/10)] ∧
    (0 : ℚ) ≠ 1/10000000000 := by
  constructor <;> decide

theorem innerSynFold_eq (t_low s_low : String) (syns : List String) :
    ∀ a : ℚ,
      syns.foldl (fun acc2 syn =>
        if contains_word t_low syn then acc2 + 1
        else if contains_word s_low syn then acc2 + 3/10
        else acc2) a
      = a + (syns.map fun syn =>
          if contains_word t_low syn then (1 : ℚ)
          else if contains_word s_low syn then 3/10 else 0).sum := by
  induction syns with
  | nil => intro a; simp
  | cons x xs ih =>
    intro a
    simp only [List.foldl_cons, List.map_cons, List.sum_cons]
    by_cases h1 : contains_word t_low x
    · rw [ih]
      simp [h1]
      ring
    · by_cases h2 : contains_word s_low x
      · rw [ih]
        simp [h1, h2]
        ring
      · rw [ih]
        simp [h1, h2]

theorem synFold_eq (t_low s_low : String) (toks : List String) :
    ∀ a : ℚ,
      toks.foldl (fun acc tok =>
        (SYNONYMS tok).foldl (fun acc2 syn =>
          if contains_word t_low syn then acc2 + 1
          else if contains_word s_low syn then acc2 + 3/10
          else acc2) acc) a
      = a + (toks.map fun tok =>
          ((SYNONYMS tok).map fun syn =>
            if contains_word t_low syn then (1 : ℚ)
            else if contains_word s_low syn then 3/10 else 0).sum).sum := by
  induction toks with
  | nil => intro a; simp
  | cons x xs ih =>
    intro a
    simp only [List.foldl_cons, List.map_cons, List.sum_cons]
    rw [ih, innerSynFold_eq]
    ring

/-- **C4 (amended).** For each query token found in the synonym table and
each of its synonyms, `enhanced_keyword_score` adds `+1.0` if the synonym
occurs as a whole word in the title, and otherwise `+0.3` if it occurs as a
whole word in the summary (the title match suppresses the summary bonus for
that pair); the bonuses of the (token, synonym) pairs stack additively on
top of the term-frequency and phrase components. -/
theorem C4_synonym_bonuses (q t s : String) :
    enhanced_keyword_score q t s =
      3 * ((keyword_hits q t s).1 : ℚ) + ((keyword_hits q t s).2 : ℚ)
      + (if !(String.intercalate " " (tokenize q) == "")
            && hasSubstr (lowerStr t).toList (String.intercalate " " (tokenize q)).toList
         then 2 else 0)
      + (if !(String.intercalate " " (tokenize q) == "")
            && hasSubstr (lowerStr s).toList (String.intercalate " " (tokenize q)).toList
         then 7/10 else 0)
      + ((tokenize q).map fun tok =>
          ((SYNONYMS tok).map fun syn =>
            if contains_word (lowerStr t) syn then (1 : ℚ)
            else if contains_word (lowerStr s) syn then 3/10 else 0).sum).sum := by
  unfold enhanced_keyword_score
  rw [synFold_eq]
  split_ifs <;> ring

unseal Rat.add Rat.mul Rat.inv Rat.sub Nat.gcd in
/-- Counterexample to C4 as stated: for query `"moon"`, the synonym
`"lunar"` occurs as a whole word in both the title and the summary, yet the
code adds only `+1.0` (total score `1`), not the `+1.0 + 0.3` (total `1.3`)
the claim's independent bonuses would give — exhibited by comparing the code
with `enhanced_keyword_score_spec`, which implements the claim's wording. -/
theorem C4_synonym_bonuses_counterexample :
    enhanced_keyword_score "moon" "lunar" "lunar" = 1 ∧
    enhanced_keyword_score_spec "moon" "lunar" "lunar" = 1 + 3/10 ∧
    enhanced_keyword_score "moon" "lunar" "lunar" ≠
      enhanced_keyword_score_spec "moon" "lunar" "lunar" := by
  refine ⟨by decide, by decide, by decide⟩

theorem pySliceTo_sublist {α : Type} (l : List α) (k : ℤ) : pySliceTo l k <+ l := by
  unfold pySliceTo
  split <;> exact List.take_sublist _ _

theorem pairwise_of_total_rel {α : Type} (R : α → α → Prop) (h : ∀ a b, R a b) :
    ∀ l : List α, l.Pairwise R := by
  intro l
  induction l with
  | nil => exact List.Pairwise.nil
  | cons x t ih => exact List.Pairwise.cons (fun y _ => h x y) ih

theorem scoreLE_trans : ∀ a b c : Scored,
    scoreLE a b = true → scoreLE b c = true → scoreLE a c = true := by
  intro a b c hab hbc
  simp only [scoreLE, decide_eq_true_eq] at *
  exact le_trans hbc hab

theorem scoreLE_total : ∀ a b : Scored, scoreLE a b || scoreLE b a := by
  intro a b
  simp only [scoreLE, Bool.or_eq_true, decide_eq_true_eq]
  exact le_total _ _

/-- **C6.** The list returned by `hybrid_search` is sorted by final score in
non-increasing order, and candidates with equal final scores appear in the
output in the relative order they had in the scored input pool (stable sort,
first-seen-wins): for every score value `v`, the output's candidates of
score `v` form a sublist of the input pool's candidates of score `v`, in
pool order. -/
theorem C6_stable_descending_sort (query : String) (k : ℤ) (meta : List Meta)
    (raw : List RawItem) (pairs : List (ℚ × ℤ)) (recF : Option String → ℚ) :
    (hybrid_search query k meta raw pairs recF).Pairwise
      (fun a b => b.score_final ≤ a.score_final) ∧
    ∀ v : ℚ,
      (hybrid_search query k meta raw pairs recF).filter
          (fun r => decide (r.score_final = v))
        <+ ((scorePool query (assemble query recF meta raw pairs)).map toHit).filter
            (fun r => decide (r.score_final = v)) := by
  by_cases hc : (assemble query recF meta raw pairs).isEmpty
  · have hout : hybrid_search query k meta raw pairs recF = [] := by
      unfold hybrid_search
      simp [hc]
    rw [hout]
    exact ⟨List.Pairwise.nil, fun v => by simp⟩
  · have hout : hybrid_search query k meta raw pairs recF =
        (pySliceTo ((scorePool query (assemble query recF meta raw pairs)).mergeSort scoreLE) k).map
          toHit := by
      unfold hybrid_search
      simp only [hc, Bool.false_eq_true, if_false]
    set pool := scorePool query (assemble query recF meta raw pairs) with hpool
    set sorted := pool.mergeSort scoreLE with hsorted_def
    have hsorted : sorted.Pairwise fun a b => scoreLE a b = true :=
      List.sorted_mergeSort scoreLE_trans scoreLE_total pool
    constructor
    · rw [hout]
      apply List.pairwise_map.mpr
      apply List.Pairwise.imp ?_ (hsorted.sublist (pySliceTo_sublist sorted k))
      intro a b h
      simpa [scoreLE, toHit] using h
    · intro v
      have hfilter_pair : (pool.filter fun c => decide (c.score_final = v)).Pairwise
          fun a b => scoreLE a b = true := by
        apply List.pairwise_filter.mpr
        apply pairwise_of_total_rel
        intro a b ha hb
        simp [scoreLE, ha, hb]
      have hpc : (pool.filter fun c => decide (c.score_final = v)) <+ sorted := by
        have hself : ((pool.filter fun c => decide (c.score_final = v)).filter
            fun c => decide (c.score_final = v))
            = pool.filter fun c => decide (c.score_final = v) := by
          apply List.filter_eq_self.mpr
          intro a ha
          exact (List.mem_filter.mp ha).2
        exact List.sublist_mergeSort scoreLE_trans scoreLE_total hfilter_pair
          (List.filter_sublist pool)
      have hperm : (sorted.filter fun c => decide (c.score_final = v))
          ~ pool.filter fun c => decide (c.score_final = v) :=
        (List.mergeSort_perm pool scoreLE).filter _
      have hsubf : (pool.filter fun c => decide (c.score_final = v)) <+
          sorted.filter fun c => decide (c.score_final = v) := by
        have hself : ((pool.filter fun c => decide (c.score_final = v)).filter
            fun c => decide (c.score_final = v))
            = pool.filter fun c => decide (c.score_final = v) := by
          apply List.filter_eq_self.mpr
          intro a ha
          exact (List.mem_filter.mp ha).2
        calc (pool.filter fun c => decide (c.score_final = v))
            = (pool.filter fun c => decide (c.score_final = v)).filter
                fun c => decide (c.score_final = v) := hself.symm
          _ <+ sorted.filter fun c => decide (c.score_final = v) :=
              List.Sublist.filter _ hpc
      have heq : (sorted.filter fun c => decide (c.score_final = v))
          = pool.filter fun c => decide (c.score_final = v) :=
        (hsubf.eq_of_length hperm.length_eq.symm).symm
      rw [hout]
      rw [List.filter_map, List.filter_map]
      apply List.Sublist.map
      refine List.Sublist.trans (List.Sublist.filter _ (pySliceTo_sublist sorted k)) ?_
      exact heq ▸ List.Sublist.refl _

theorem exp_neg_one_bounds :
    (0.3678 : ℝ) < Real.exp (-1) ∧ Real.exp (-1) < (0.3679 : ℝ) := by
  have h1 := Real.exp_one_gt_d9
  have h2 := Real.exp_one_lt_d9
  have hx : (0 : ℝ) < Real.exp (-1) := Real.exp_pos _
  have he1 : Real.exp (-1) * Real.exp 1 = 1 := by
    rw [← Real.exp_add]
    norm_num
  constructor
  · nlinarith
  · nlinarith

theorem fallback_age_ge (now : PyDateTime) (hy : 2001 ≤ now.year)
    (hm1 : 1 ≤ now.month) (hm2 : now.month ≤ 12) :
    364 ≤ toOrdinalDay now - toOrdinalDay (replaceYear2000 now) := by
  have hyear : 365 ≤ daysBeforeYear now.year - daysBeforeYear 2000 := by
    unfold daysBeforeYear
    have e4 : (now.year - 1).fdiv 4 = (now.year - 1) / 4 := Int.fdiv_eq_ediv _ (by omega)
    have e100 : (now.year - 1).fdiv 100 = (now.year - 1) / 100 := Int.fdiv_eq_ediv _ (by omega)
    have e400 : (now.year - 1).fdiv 400 = (now.year - 1) / 400 := Int.fdiv_eq_ediv _ (by omega)
    have c4 : ((2000 : ℤ) - 1).fdiv 4 = 499 := by decide
    have c100 : ((2000 : ℤ) - 1).fdiv 100 = 19 := by decide
    have c400 : ((2000 : ℤ) - 1).fdiv 400 = 4 := by decide
    rw [e4, e100, e400, c4, c100, c400]
    omega
  have hmon : daysBeforeMonth true now.month
      ≤ daysBeforeMonth (isLeapYear now.year) now.month + 1 := by
    unfold daysBeforeMonth
    by_cases h3 : isLeapYear now.year <;> by_cases hm3 : 3 ≤ now.month <;>
      simp [h3, hm3]
  have hrep_y : (replaceYear2000 now).year = 2000 := rfl
  have hrep_m : (replaceYear2000 now).month = now.month := rfl
  have hrep_d : (replaceYear2000 now).day = now.day := rfl
  unfold toOrdinalDay
  rw [hrep_y, hrep_m, hrep_d]
  have hleap2000 : isLeapYear 2000 = true := by decide
  rw [hleap2000]
  omega

theorem exp_neg_26_small : Real.exp (-26 : ℝ) < 1 / 10 ^ 10 := by
  have h27 : (2.7 : ℝ) ≤ Real.exp 1 :=
    le_of_lt (lt_trans (by norm_num) Real.exp_one_gt_d9)
  have hpow : ((2.7 : ℝ)) ^ (26 : ℕ) ≤ (Real.exp 1) ^ (26 : ℕ) :=
    pow_le_pow_left (by norm_num) h27 26
  have hexp : (Real.exp 1) ^ (26 : ℕ) = Real.exp 26 := by
    rw [← Real.exp_nat_mul]
    norm_num
  have hbig : (10 : ℝ) ^ (10 : ℕ) < (2.7 : ℝ) ^ (26 : ℕ) := by norm_num
  have h26 : (10 : ℝ) ^ (10 : ℕ) < Real.exp 26 := by
    calc (10 : ℝ) ^ (10 : ℕ) < (2.7 : ℝ) ^ (26 : ℕ) := hbig
      _ ≤ (Real.exp 1) ^ (26 : ℕ) := hpow
      _ = Real.exp 26 := hexp
  rw [Real.exp_neg]
  rw [inv_lt_iff_one_lt_mul₀ (Real.exp_pos _)]
  rw [div_mul_eq_mul_div, lt_div_iff (by positivity)]
  nlinarith [Real.exp_pos (26 : ℝ)]

/-- **C7.** For a parseable published-at string and any `now`, the recency
score equals `exp(-age_days / 14)` with
`age_days = max(0, (now - published_at) in days)`; that function of the age
is `1` at age `0`, strictly decreasing, and takes the values `exp(-1) ≈
0.368` at 14 days and `exp(-2) ≈ 0.135` at 28 days. -/
theorem C7_recency_decay (parse : String → Option ℚ) (s : String) (t : ℚ)
    (now : PyDateTime) (hs : s ≠ "") (hp : parse s = some t) :
    recency_boost parse (.str s) now 14
        = Real.exp (-((max 0 ((toUTCSeconds now - t) / 86400) : ℚ) : ℝ) / 14) ∧
    Real.exp (-(0 : ℝ) / 14) = 1 ∧
    (∀ a b : ℝ, a < b → Real.exp (-b / 14) < Real.exp (-a / 14)) ∧
    Real.exp (-(14 : ℝ) / 14) = Real.exp (-1) ∧
    (0.367 : ℝ) < Real.exp (-1) ∧ Real.exp (-1) < (0.369 : ℝ) ∧
    Real.exp (-(28 : ℝ) / 14) = Real.exp (-2) ∧
    (0.134 : ℝ) < Real.exp (-2) ∧ Real.exp (-2) < (0.136 : ℝ) := by
  obtain ⟨hb1, hb2⟩ := exp_neg_one_bounds
  have he2 : Real.exp (-2 : ℝ) = Real.exp (-1) * Real.exp (-1) := by
    rw [← Real.exp_add]
    norm_num
  refine ⟨?_, by norm_num, ?_, by congr 1; norm_num, by linarith, by linarith,
    by congr 1; norm_num, ?_, ?_⟩
  · unfold recency_boost
    have hau : as_utc parse s now = t := by
      unfold as_utc
      rw [if_neg hs, hp]
    have h1 : age_days parse (.str s) now = max 0 ((toUTCSeconds now - t) / 86400) := by
      rw [show age_days parse (.str s) now
          = max 0 ((toUTCSeconds now - as_utc parse s now) / 86400) from rfl, hau]
    rw [h1]
    norm_num
  · intro a b hab
    apply Real.exp_lt_exp.mpr
    linarith
  · nlinarith
  · nlinarith

/-- Witness for C7 with the concrete parse result `0` for the string `"a"`
and `now` = 2026-10-12. -/
theorem C7_recency_decay_witness :
    recency_boost parseT (.str "a") nowT 14
        = Real.exp (-((max 0 ((toUTCSeconds nowT - 0) / 86400) : ℚ) : ℝ) / 14) ∧
    Real.exp (-(0 : ℝ) / 14) = 1 ∧
    (∀ a b : ℝ, a < b → Real.exp (-b / 14) < Real.exp (-a / 14)) ∧
    Real.exp (-(14 : ℝ) / 14) = Real.exp (-1) ∧
    (0.367 : ℝ) < Real.exp (-1) ∧ Real.exp (-1) < (0.369 : ℝ) ∧
    Real.exp (-(28 : ℝ) / 14) = Real.exp (-2) ∧
    (0.134 : ℝ) < Real.exp (-2) ∧ Real.exp (-2) < (0.136 : ℝ) :=
  C7_recency_decay parseT "a" 0 nowT (by decide) rfl

/-- **C8 (amended).** `recency_boost` never raises: a missing
(`None`/non-string, non-datetime) `published_at` and an empty or unparseable
string are all mapped to the `now.replace(year=2000)` fallback instant and
receive a vanishing positive recency — below `10⁻¹⁰` whenever `now` lies in
year 2001 or later — while a `datetime` value is used as the timestamp
itself (so a recent datetime is NOT demoted). -/
theorem C8_fallback_recency (parse : String → Option ℚ) (pub : PubVal)
    (now : PyDateTime)
    (hbad : pub = PubVal.null ∨ ∃ s, pub = PubVal.str s ∧ (s = "" ∨ parse s = none)) :
    recency_boost parse pub now 14
        = Real.exp (-((max 0 ((toUTCSeconds now - fallbackSeconds now) / 86400) : ℚ) : ℝ) / 14) ∧
    0 < recency_boost parse pub now 14 ∧
    (2001 ≤ now.year → 1 ≤ now.month → now.month ≤ 12 →
      recency_boost parse pub now 14 < 1 / 10 ^ 10) ∧
    (∀ d : PyDateTime, recency_boost parse (PubVal.dt d) now 14
        = Real.exp (-((max 0 ((toUTCSeconds now - toUTCSeconds d) / 86400) : ℚ) : ℝ) / 14)) := by
  have hval : age_days parse pub now
      = max 0 ((toUTCSeconds now - fallbackSeconds now) / 86400) := by
    rcases hbad with h | ⟨s, hps, hcase⟩
    · subst h
      rfl
    · subst hps
      have hstr : age_days parse (.str s) now
          = max 0 ((toUTCSeconds now - as_utc parse s now) / 86400) := rfl
      rw [hstr]
      have hfb : as_utc parse s now = fallbackSeconds now := by
        unfold as_utc
        rcases hcase with he | hn
        · rw [if_pos he]
        · by_cases he : s = ""
          · rw [if_pos he]
          · rw [if_neg he, hn]
      rw [hfb]
  have hboost : recency_boost parse pub now 14
      = Real.exp (-((max 0 ((toUTCSeconds now - fallbackSeconds now) / 86400) : ℚ) : ℝ) / 14) := by
    unfold recency_boost
    rw [hval]
    norm_num
  refine ⟨hboost, Real.exp_pos _, ?_, fun d => rfl⟩
  intro hy hm1 hm2
  rw [hboost]
  have hdays : 364 ≤ toOrdinalDay now - toOrdinalDay (replaceYear2000 now) :=
    fallback_age_ge now hy hm1 hm2
  have hsec : toUTCSeconds now - fallbackSeconds now
      = 86400 * ((toOrdinalDay now - toOrdinalDay (replaceYear2000 now) : ℤ) : ℚ) := by
    unfold fallbackSeconds toUTCSeconds
    have : (replaceYear2000 now).secOfDay = now.secOfDay := rfl
    rw [this]
    push_cast
    ring
  have hage : (364 : ℚ) ≤ max 0 ((toUTCSeconds now - fallbackSeconds now) / 86400) := by
    rw [hsec]
    have hc : ((364 : ℤ) : ℚ) ≤ ((toOrdinalDay now - toOrdinalDay (replaceYear2000 now) : ℤ) : ℚ) := by
      exact_mod_cast hdays
    calc (364 : ℚ) ≤ ((toOrdinalDay now - toOrdinalDay (replaceYear2000 now) : ℤ) : ℚ) := by
          exact_mod_cast hc
      _ = 86400 * ((toOrdinalDay now - toOrdinalDay (replaceYear2000 now) : ℤ) : ℚ) / 86400 := by
          ring
      _ ≤ max 0 (86400 * ((toOrdinalDay now - toOrdinalDay (replaceYear2000 now) : ℤ) : ℚ) / 86400) :=
          le_max_right _ _
  have hle : Real.exp (-((max 0 ((toUTCSeconds now - fallbackSeconds now) / 86400) : ℚ) : ℝ) / 14)
      ≤ Real.exp (-26 : ℝ) := by
    apply Real.exp_le_exp.mpr
    have h364 : (364 : ℝ) ≤ ((max 0 ((toUTCSeconds now - fallbackSeconds now) / 86400) : ℚ) : ℝ) := by
      exact_mod_cast hage
    linarith
  exact lt_of_le_of_lt hle exp_neg_26_small

/-- Witness for C8 (amended) at `published_at = None`, `now` = 2026-10-12. -/
theorem C8_fallback_recency_witness :
    recency_boost parseNone PubVal.null nowT 14
        = Real.exp (-((max 0 ((toUTCSeconds nowT - fallbackSeconds nowT) / 86400) : ℚ) : ℝ) / 14) ∧
    0 < recency_boost parseNone PubVal.null nowT 14 ∧
    (2001 ≤ nowT.year → 1 ≤ nowT.month → nowT.month ≤ 12 →
      recency_boost parseNone PubVal.null nowT 14 < 1 / 10 ^ 10) ∧
    (∀ d : PyDateTime, recency_boost parseNone (PubVal.dt d) nowT 14
        = Real.exp (-((max 0 ((toUTCSeconds nowT - toUTCSeconds d) / 86400) : ℚ) : ℝ) / 14)) :=
  C8_fallback_recency parseNone PubVal.null nowT (Or.inl rfl)

/-- Counterexample to C8 as stated: a `datetime` equal to `now` is a
non-string `published_at`, yet it scores the maximal recency `1`, strictly
above the year-2000 fallback score that the claim says every non-string
input receives. -/
theorem C8_fallback_recency_counterexample :
    recency_boost parseNone (PubVal.dt nowT) nowT 14 = 1 ∧
    recency_boost parseNone PubVal.null nowT 14
      < recency_boost parseNone (PubVal.dt nowT) nowT 14 := by
  have hone : recency_boost parseNone (PubVal.dt nowT) nowT 14 = 1 := by
    unfold recency_boost
    have hage : age_days parseNone (PubVal.dt nowT) nowT = 0 := by
      rw [show age_days parseNone (PubVal.dt nowT) nowT
          = max 0 ((toUTCSeconds nowT - toUTCSeconds nowT) / 86400) from rfl]
      norm_num
    rw [hage]
    norm_num [Real.exp_zero]
  refine ⟨hone, ?_⟩
  rw [hone]
  have h := C8_fallback_recency parseNone PubVal.null nowT (Or.inl rfl)
  have hlt := h.2.2.1 (by norm_num [nowT]) (by norm_num [nowT]) (by norm_num [nowT])
  calc recency_boost parseNone PubVal.null nowT 14 < 1 / 10 ^ 10 := hlt
    _ < 1 := by norm_num

/-- **C9.** For every `published_at` input and any `now` at or after year
2000, `recency_boost` returns a value in `(0, 1]`: never an error and never
exactly `0`. -/
theorem C9_recency_positive (parse : String → Option ℚ) (pub : PubVal)
    (now : PyDateTime) (h : 2000 ≤ now.year) :
    0 < recency_boost parse pub now 14 ∧ recency_boost parse pub now 14 ≤ 1 := by
  refine ⟨Real.exp_pos _, ?_⟩
  unfold recency_boost
  apply Real.exp_le_one_iff.mpr
  have hage : (0 : ℚ) ≤ age_days parse pub now := le_max_left _ _
  have hcast : (0 : ℝ) ≤ ((age_days parse pub now : ℚ) : ℝ) := by exact_mod_cast hage
  have hdiv : (0 : ℝ) ≤ ((age_days parse pub now : ℚ) : ℝ) / 14 := by positivity
  linarith

/-- Witness for C9 at `published_at = None`, `now` = 2026-10-12. -/
theorem C9_recency_positive_witness :
    0 < recency_boost parseNone PubVal.null nowT 14 ∧
    recency_boost parseNone PubVal.null nowT 14 ≤ 1 :=
  C9_recency_positive parseNone PubVal.null nowT (by norm_num [nowT])

end AstroNews
